import Mathlib

/-!
# Verification of the `web-server-node` HTTP protocol core

This file is a shallow embedding, in Lean 4, of the protocol core of the
`web-server-node` repository (TypeScript on Node.js): the dynamic byte
buffer (`bufPush` / `bufPop`), the message framer (`cutMessage`), the
request parser (`parseHTTPReq`, `parseRequestLine`, `validateURI`,
`validateHeader`, `splitlines`), header lookup (`getField`), body-reader
selection (`readerFromReq` / `parseDec`), the content-length body reader
(`readerFromConnLength`), the chunked body reader stub
(`readerFromChunked`), and the per-connection serve loop (`serveClient`).

Modelling conventions:
* JS `Buffer` values are `List Nat` (one `Nat` per byte).
* `Buffer#toString()` (UTF-8 decode) and `Buffer.from(string)` (UTF-8
  encode) are modelled bytewise (`Char.ofNat` / `Char.toNat`).  All
  protocol-relevant text is ASCII, where the two coincide.
* JS `String#split(sep)` for a one-character separator is modelled by
  `splitChar`, which keeps empty fields exactly like the JS method.
* Fallible code returns `Except Err _`; `Err` distinguishes thrown
  `HTTPError`s from other JS exceptions (`TypeError`, `RangeError`,
  plain `Error`), which the server does not convert into responses.
* Node's `Buffer#fill(v, offset, end)` validates `end ≤ buf.length` and
  throws `ERR_OUT_OF_RANGE` otherwise (node `lib/buffer.js`, `_fill` →
  `validateOffset(end, 'end', 0, buf.length)`); `Buffer#copy` and
  `TypedArray#copyWithin` instead clamp to the target.  The model keeps
  exactly this distinction.
* JS numbers that stay non-negative integers in every execution
  considered here are modelled as `Nat` (noted at each use).
-/

namespace WebServerNode

/-! ## Bytes, characters and JS string/buffer primitives -/

/-- `Buffer#toString()` modelled bytewise (agrees with UTF-8 on ASCII). -/
def bytesToChars (bs : List Nat) : List Char :=
  bs.map Char.ofNat

/-- `Buffer.from(string)` modelled bytewise (agrees with UTF-8 on ASCII). -/
def charsToBytes (cs : List Char) : List Nat :=
  cs.map Char.toNat

/-- Byte list of a Lean string literal (ASCII in every use below). -/
def strBytes (s : String) : List Nat :=
  charsToBytes s.data

/-- JS `String#split(sep)` for a one-character separator: splits at every
occurrence and keeps empty fields (`"a::b" ↦ ["a", "", "b"]`, `"" ↦ [""]`). -/
def splitChar (sep : Char) : List Char → List (List Char)
  | [] => [[]]
  | c :: t =>
    if c = sep then
      [] :: splitChar sep t
    else
      match splitChar sep t with
      | [] => [[c]]
      | h :: r => (c :: h) :: r

/-- First index at which `needle` occurs as a contiguous sublist of `hay`
(JS `Buffer#indexOf`), or `none`. -/
def findSub (needle : List Nat) : List Nat → Option Nat
  | [] => if needle = [] then some 0 else none
  | x :: t =>
    if needle.isPrefixOf (x :: t) then some 0
    else (findSub needle t).map (· + 1)

/-- `Buffer.alloc(n)`: `n` zero bytes. -/
def bufAlloc (n : Nat) : List Nat :=
  List.replicate n 0

/-- Write `data` into `target` at offset `pos`, clamped to the target's
length (the clamping behaviour shared by `Buffer#copy` with a given
`targetStart` and by `TypedArray#copyWithin`).  The target's length is
preserved. -/
def writeAt (target : List Nat) (pos : Nat) (data : List Nat) : List Nat :=
  target.take pos ++ data.take (target.length - pos) ++ target.drop (pos + data.length)

/-- `src.copy(target, targetStart, sourceStart)` (clamps, never throws). -/
def bufCopy (src target : List Nat) (targetStart sourceStart : Nat) : List Nat :=
  writeAt target targetStart (src.drop sourceStart)

/-- `buf.copyWithin(t, s, e)` (ECMAScript semantics: both ends clamped,
never throws). -/
def copyWithin (buf : List Nat) (t s e : Nat) : List Nat :=
  writeAt buf t ((buf.drop s).take (e - s))

/-- `buf.fill(0, s, e)`.  Node validates `e ≤ buf.length` and throws
`ERR_OUT_OF_RANGE` otherwise (modelled as `none`); with `s ≥ e` it is a
no-op. -/
def bufFill0 (buf : List Nat) (s e : Nat) : Option (List Nat) :=
  if e > buf.length then none
  else if s ≥ e then some buf
  else some (buf.take s ++ List.replicate (e - s) 0 ++ buf.drop e)

deriving instance DecidableEq for Except

/-! ## Errors and protocol data -/

/-- `HTTPError` from `types.ts`: an HTTP status code plus message. -/
structure HTTPError where
  code : Nat
  message : String
deriving DecidableEq, Repr

/-- A thrown JS exception: either an `HTTPError` (converted to an error
response by the connection loop) or any other exception (`TypeError`,
`RangeError`, plain `Error`), identified by its message. -/
inductive Err where
  | http (e : HTTPError)
  | runtime (msg : String)
deriving DecidableEq, Repr

/-- `HTTPReq` from `types.ts`. -/
structure HTTPReq where
  method : String
  uri : List Nat
  version : String
  headers : List (List Nat)
deriving DecidableEq, Repr

/-! ## DynamicBuffer (`dynamicBuffer.ts`) -/

/-- `DynBuf` from `types.ts`: backing bytes (`data`, whose length is the
capacity), the count of unconsumed bytes (`length`) and the start of the
unconsumed window (`begin`).  Both numbers stay non-negative in every
execution considered here, so they are `Nat`. -/
structure DynBuf where
  data : List Nat
  length : Nat
  bstart : Nat
deriving DecidableEq, Repr

/-- The capacity-doubling loop of `bufPush`
(`while (cap < newLen) { cap *= 2; }`), with explicit fuel so that it is
structurally recursive.  `growCap` supplies `newLen` steps, which is
always enough: the loop starts from `cap ≥ 32` and doubles, so it stops
within `newLen` iterations (see `growCapGo_ge`). -/
def growCapGo : Nat → Nat → Nat → Nat
  | 0, cap, _ => cap
  | f + 1, cap, newLen => if cap < newLen then growCapGo f (cap * 2) newLen else cap

/-- `let cap = max(buf.data.length, 32); while (cap < newLen) cap *= 2`. -/
def growCap (cap newLen : Nat) : Nat :=
  growCapGo newLen cap newLen

theorem growCapGo_ge (f cap newLen : Nat) (hcap : 1 ≤ cap) (hf : newLen ≤ cap + f) :
    newLen ≤ growCapGo f cap newLen := by
  induction f generalizing cap with
  | zero => simpa [growCapGo] using hf
  | succ f ih =>
    simp only [growCapGo]
    split
    · exact ih (cap * 2) (by omega) (by omega)
    · omega

/-- The fuel in `growCap` is sufficient: the result accommodates `newLen`. -/
theorem growCap_ge (cap newLen : Nat) (hcap : 1 ≤ cap) : newLen ≤ growCap cap newLen :=
  growCapGo_ge newLen cap newLen hcap (by omega)

/-- `bufPush(buf, data)` from `dynamicBuffer.ts`.  If
`buf.data.length - buf.begin < newLen` the backing store is reallocated to
`growCap (max buf.data.length 32) newLen` bytes and the old bytes are
copied to offset 0 **of the new store at their old positions**
(`buf.data.copy(newData, 0, 0)`, `begin` unchanged); then the new bytes
are written at `begin + length` (`data.copy(buf.data, ..., 0)`, clamped),
and `length` becomes `newLen`. -/
def bufPush (buf : DynBuf) (data : List Nat) : DynBuf :=
  let newLen := buf.length + data.length
  let store :=
    if buf.data.length < buf.bstart + newLen then
      let cap := growCap (max buf.data.length 32) newLen
      bufCopy buf.data (bufAlloc cap) 0 0
    else
      buf.data
  { data := writeAt store (buf.length + buf.bstart) data
    length := newLen
    bstart := buf.bstart }

/-- `bufPop(buf, count)` from `dynamicBuffer.ts`.  Advances `begin`; if the
new `begin` exceeds half the capacity it compacts:
`copyWithin(0, begin, begin + length)` then `fill(0, length, length + begin)`
(both with the **old** `length` and the **new** `begin`), resetting `begin`
to 0; finally `length -= count`.  The `fill` throws `ERR_OUT_OF_RANGE`
(modelled as `none`) whenever `length + begin` exceeds the capacity.
Every call in the source has `count ≤ buf.length` (so `Nat` subtraction is
exact). -/
def bufPop (buf : DynBuf) (count : Nat) : Option DynBuf :=
  let begin1 := buf.bstart + count
  if begin1 * 2 > buf.data.length then
    let d1 := copyWithin buf.data 0 begin1 (begin1 + buf.length)
    match bufFill0 d1 buf.length (buf.length + begin1) with
    | none => none
    | some d2 => some { data := d2, length := buf.length - count, bstart := 0 }
  else
    some { data := buf.data, length := buf.length - count, bstart := begin1 }

/-- The DynamicBuffer window invariant claimed by the spec
(`0 ≤ begin` is automatic for `Nat`): `begin + length ≤ capacity`. -/
def dynBufInvB (b : DynBuf) : Bool :=
  b.bstart + b.length ≤ b.data.length

/-! ## Request parsing (`httpServerApi.ts`) -/

/-- `kHttpMethods`. -/
def kHttpMethods : List String :=
  ["GET", "POST", "PUT", "DELETE", "HEAD", "OPTIONS", "TRACE", "CONNECT"]

/-- `kMaxHeaderLen = 1024 * 8`. -/
def kMaxHeaderLen : Nat := 1024 * 8

/-- CRLF as bytes. -/
def crlf : List Nat := [13, 10]

/-- CRLFCRLF (the header terminator) as bytes. -/
def crlfcrlf : List Nat := [13, 10, 13, 10]

/-- `validateURI(uri, method)`: the URI must be non-empty and contain no
space (byte 32); `CONNECT` additionally requires a `:` (byte 58) and
`OPTIONS` requires length exactly 1. -/
def validateURI (uri : List Nat) (method : String) : Bool :=
  if uri.length = 0 || uri.contains 32 then false
  else if method = "CONNECT" && !(uri.contains 58) then false
  else if method = "OPTIONS" && uri.length != 1 then false
  else true

/-- `parseRequestLine(arg0)`: splits the decoded line on `" "`; demands
exactly 3 tokens (else 400); whitelists the method (else 405); validates
the URI (else 400); extracts `elements[2].split("/")[1]` — the text
between the first and second `/` of the third token, `undefined` (here
`none`) when the token has no `/` — and demands `"1.0"` or `"1.1"`
(else 505). -/
def parseRequestLine (line : List Nat) : Except Err (String × List Nat × String) :=
  match splitChar ' ' (bytesToChars line) with
  | [mc, uc, vc] =>
    let method := String.mk mc
    if (kHttpMethods.contains method) = false then
      .error (.http ⟨405, "Method not allowed"⟩)
    else
      let uri := charsToBytes uc
      if validateURI uri method = false then
        .error (.http ⟨400, "Bad URI"⟩)
      else
        match (splitChar '/' vc).get? 1 with
        | none => .error (.http ⟨505, "HTTP version not supported"⟩)
        | some v =>
          if String.mk v ≠ "1.0" ∧ String.mk v ≠ "1.1" then
            .error (.http ⟨505, "HTTP version not supported"⟩)
          else
            .ok (method, uri, String.mk v)
  | _ => .error (.http ⟨400, "Bad request line"⟩)

/-- `validateHeader(h)`: the raw line must be non-empty and contain a `:`
(byte 58); then `h.toString().split(":", 2)` — the *first two* fields of
the full split, so for `"a:b:c"` the parts are `"a"` and `"b"` — must be
two fields, both non-empty, and the key must not end in `" "`. -/
def validateHeader (h : List Nat) : Bool :=
  if h.length = 0 || !(h.contains 58) then false
  else
    match (splitChar ':' (bytesToChars h)).take 2 with
    | [k, v] => !(k.length = 0 || v.length = 0 || k.getLast? = some ' ')
    | _ => false

/-- One step of the `splitlines` while-loop, at absolute position `b`.
Mirrors the source exactly, including the quirk that the
"skip empty line" test `if (idx != 0)` compares the **absolute** index of
the separator with 0, so only a CRLF at the very start of `data` drops a
field.  The explicit fuel makes the recursion structural; every loop
iteration advances `b` by at least 2, so `splitlines`'s `data.length + 1`
steps are always enough (the `fuel = 0` branch is unreachable,
see `splitlinesGo_fuel_irrelevant`). -/
def splitlinesGo : Nat → List Nat → Nat → List (List Nat)
  | 0, _, _ => []
  | f + 1, data, b =>
    if b < data.length then
      match findSub crlf (data.drop b) with
      | none => [data.drop b]
      | some rel =>
        let idx := b + rel
        let rest := splitlinesGo f data (idx + 2)
        if idx ≠ 0 then (data.drop b).take rel :: rest else rest
    else []

/-- `splitlines(data)`. -/
def splitlines (data : List Nat) : List (List Nat) :=
  splitlinesGo (data.length + 1) data 0

theorem splitlinesGo_fuel_irrelevant (f g : Nat) (data : List Nat) (b : Nat)
    (hf : data.length < b + f) (hg : data.length < b + g) :
    splitlinesGo f data b = splitlinesGo g data b := by
  induction f generalizing g b with
  | zero =>
    cases g with
    | zero => rfl
    | succ g => simp [splitlinesGo, show ¬b < data.length by omega]
  | succ f ih =>
    cases g with
    | zero => simp [splitlinesGo, show ¬b < data.length by omega]
    | succ g =>
      simp only [splitlinesGo]
      split
      · cases hfind : findSub crlf (data.drop b) with
        | none => rfl
        | some rel =>
          have hih := ih g (b + rel + 2) (by omega) (by omega)
          simp [hih]
      · rfl

/-- `parseHTTPReq(data)`: split into lines; parse the request line from
`lines[0]` (an empty `lines` would make `lines[0]` `undefined` and crash
with a `TypeError`); validate every line strictly between the first and
the last (each failure is `HTTPError(400, "Bad header")`) and keep them,
in order, as the headers.  (`console.assert` on the last line being empty
never throws.) -/
def parseHTTPReq (data : List Nat) : Except Err HTTPReq :=
  match splitlines data with
  | [] => .error (.runtime "TypeError")
  | first :: rest =>
    match parseRequestLine first with
    | .error e => .error e
    | .ok (method, uri, version) =>
      let hlines := rest.dropLast
      if hlines.all validateHeader then
        .ok { method := method, uri := uri, version := version, headers := hlines }
      else
        .error (.http ⟨400, "Bad header"⟩)

/-- `cutMessage(buf)`: searches the unconsumed window
`buf.data.subarray(begin, begin + length)` for CRLFCRLF.  If absent:
413 "Header too long" when `length > kMaxHeaderLen`, else `none` with the
buffer untouched.  If present at window offset `idx`: parse
`[begin, begin + idx + 4)` and then `bufPop(buf, idx + 4)`. -/
def cutMessage (buf : DynBuf) : Except Err (Option HTTPReq × DynBuf) :=
  let window := (buf.data.drop buf.bstart).take buf.length
  match findSub crlfcrlf window with
  | none =>
    if buf.length > kMaxHeaderLen then .error (.http ⟨413, "Header too long"⟩)
    else .ok (none, buf)
  | some idx =>
    match parseHTTPReq ((buf.data.drop buf.bstart).take (idx + 4)) with
    | .error e => .error e
    | .ok msg =>
      match bufPop buf (idx + 4) with
      | none => .error (.runtime "ERR_OUT_OF_RANGE")
      | some buf2 => .ok (some msg, buf2)

/-! ## Header lookup and body-reader selection (`httpServerApi.ts`) -/

/-- `String#toLowerCase()` (ASCII; JS and `Char.toLower` agree there). -/
def toLowerChars (l : List Char) : List Char :=
  l.map Char.toLower

/-- `getField(headers, key)`: for each raw line, destructure
`h.toString().split(":")` as `[k, v]` — so `v` is the field between the
first and second `:`, or `undefined` when the line has no `:` (in which
case `Buffer.from(v)` would throw a `TypeError`); return `Buffer.from(v)`
for the first case-insensitive key match, else `null`. -/
def getField (headers : List (List Nat)) (key : String) : Except Err (Option (List Nat)) :=
  match headers with
  | [] => .ok none
  | h :: t =>
    let parts := splitChar ':' (bytesToChars h)
    if toLowerChars (parts.headD []) = toLowerChars key.data then
      match parts.get? 1 with
      | some v => .ok (some (charsToBytes v))
      | none => .error (.runtime "TypeError")
    else getField t key

/-- JS whitespace skipped by `parseInt` (the ASCII part). -/
def jsWhitespace (c : Char) : Bool :=
  c = ' ' || c = '\t' || c = '\n' || c = '\r' || c = '\x0b' || c = '\x0c'

/-- Value of a non-empty decimal digit string. -/
def digitsVal (ds : List Char) : Nat :=
  ds.foldl (fun a c => a * 10 + (c.toNat - 48)) 0

/-- The longest decimal-digit prefix, `none` if empty (→ `NaN`). -/
def digitsPart (l : List Char) : Option Nat :=
  let ds := l.takeWhile Char.isDigit
  if ds.isEmpty then none else some (digitsVal ds)

/-- JS `parseInt(s, 10)`: skip whitespace, optional sign, longest digit
prefix; no digits → `NaN` (`none`).  (Exact integer model; JS doubles
lose precision only beyond 2^53, far outside these claims.) -/
def jsParseInt10 (l : List Char) : Option Int :=
  match l.dropWhile jsWhitespace with
  | '-' :: t => (digitsPart t).map (fun n => -(n : Int))
  | '+' :: t => (digitsPart t).map (fun n => (n : Int))
  | l1 => (digitsPart l1).map (fun n => (n : Int))

/-- `parseDec(arg0)`: `parseInt(arg0, 10) || NaN`.  A falsy result of
`parseInt` — that is, `NaN` **or `0`** — becomes `NaN` (`none`). -/
def parseDec (s : List Char) : Option Int :=
  match jsParseInt10 s with
  | none => none
  | some n => if n = 0 then none else some n

/-- The framing strategy selected by `readerFromReq`. -/
inductive Framing where
  | chunked
  | withLength (n : Nat)
deriving DecidableEq, Repr

/-- The body-framing selection of `readerFromReq(conn, buf, req)` (the part
before a reader is constructed): `bodyLen = -1`, replaced by
`parseDec(Content-Length)` when that header is present (`NaN` → 400
"Bad Content-Length"); `GET`/`HEAD` disallow a body (declared length > 0 or
chunked → 400 "Body not allowed"; else forced to 0);
`Transfer-Encoding` must byte-equal `"chunked"` (note `getField` keeps the
leading space of `" chunked"`, so the usual `Transfer-Encoding: chunked`
form does *not* match); chunked wins, else a non-negative length, else the
`Error("Not implemented")` fallthrough. -/
def readerFromReq (req : HTTPReq) : Except Err Framing := do
  let cl ← getField req.headers "Content-Length"
  let bodyLen : Int ←
    match cl with
    | none => pure (-1)
    | some v =>
      match parseDec (bytesToChars v) with
      | none => throw (.http ⟨400, "Bad Content-Length"⟩)
      | some n => pure n
  let bodyAllowed := !(req.method = "GET" || req.method = "HEAD")
  let te ← getField req.headers "Transfer-Encoding"
  let chunked : Bool :=
    match te with
    | some v => v = strBytes "chunked"
    | none => false
  if !bodyAllowed && (bodyLen > 0 || chunked) then
    throw (.http ⟨400, "Body not allowed"⟩)
  else
    let bodyLen := if !bodyAllowed then 0 else bodyLen
    if chunked then pure .chunked
    else if bodyLen ≥ 0 then pure (.withLength bodyLen.toNat)
    else throw (.runtime "Not implemented")

/-! ## Body readers (`httpServerApi.ts`) -/

/-- `readerFromChunked(conn, buf)`: the entire decoder is commented out in
the source; the function body is `throw new Error("Function not
implemented.")`, unconditionally, before any reader is produced. -/
def readerFromChunked (_conn : List (List Nat)) (_buf : DynBuf) : Except Err Unit :=
  .error (.runtime "Function not implemented.")

/-- One `read()` call on the reader made by
`readerFromConnLength(conn, buf, bodyLen)`.  The connection is the list of
chunks the transport will still deliver; an exhausted list means the
socket has ended, so `soRead` resolves with an empty buffer.  Returns the
produced chunk together with the updated `bodyLen` capture, buffer, and
connection.  `bodyLen` starts ≥ 0 and is decremented by at most itself,
so it is a `Nat`. -/
def connLengthRead (bodyLen : Nat) (buf : DynBuf) (conn : List (List Nat)) :
    Except Err (List Nat × Nat × DynBuf × List (List Nat)) :=
  if bodyLen = 0 then .ok ([], 0, buf, conn)
  else
    let pull : Except Err (DynBuf × List (List Nat)) :=
      if buf.length = 0 then
        let (data, rest) :=
          match conn with
          | [] => (([] : List Nat), ([] : List (List Nat)))
          | d :: r => (d, r)
        let buf1 := bufPush buf data
        if data.length = 0 then .error (.http ⟨400, "Unexpected EOF"⟩)
        else .ok (buf1, rest)
      else .ok (buf, conn)
    match pull with
    | .error e => .error e
    | .ok (buf1, conn1) =>
      let availableData := min buf1.length bodyLen
      let body := (buf1.data.drop buf1.bstart).take availableData
      match bufPop buf1 availableData with
      | none => .error (.runtime "ERR_OUT_OF_RANGE")
      | some buf2 => .ok (body, bodyLen - availableData, buf2, conn1)

/-- Repeated `read()` until an empty chunk: the `serveClient` discard loop
`while ((await reqBody.read()).length > 0)`, and equally the body-streaming
loop of `writeHTTPRes` for the `/echo` route.  `fuel` only bounds the
recursion (each JS iteration strictly decreases the remaining length). -/
def drainBody (fuel : Nat) (bodyLen : Nat) (buf : DynBuf) (conn : List (List Nat)) :
    Except Err (DynBuf × List (List Nat)) :=
  match fuel with
  | 0 => .ok (buf, conn)
  | f + 1 =>
    match connLengthRead bodyLen buf conn with
    | .error e => .error e
    | .ok (chunk, rem, buf1, conn1) =>
      if chunk.length = 0 then .ok (buf1, conn1)
      else drainBody f rem buf1 conn1

/-! ## The connection loop (`serveClient` in `httpServerApi.ts`) -/

/-- The `serveClient` loop, as a function of the buffer and the list of
chunks the transport will still deliver.  It returns the requests parsed
(in order) and how the loop ended: cleanly (`.ok`) or by a thrown
exception (`.error`).  Response bytes are not tracked — `handleReq`
always succeeds, and `soWrite` errors are outside this model — but the
*reads* a response performs are: the `/echo` route's response body is the
request's own body reader, so `writeHTTPRes` consumes it while streaming;
any other route uses an in-memory body.  After writing, a `"1.0"` request
returns immediately (the connection is destroyed by `newConn`); otherwise
the remaining body is discarded and the loop continues.  `fuel` bounds the
number of loop iterations. -/
def serveLoop (fuel : Nat) (buf : DynBuf) (conn : List (List Nat)) :
    List HTTPReq × Except Err Unit :=
  match fuel with
  | 0 => ([], .ok ())
  | f + 1 =>
    match cutMessage buf with
    | .error e => ([], .error e)
    | .ok (none, buf1) =>
      let (data, rest) :=
        match conn with
        | [] => (([] : List Nat), ([] : List (List Nat)))
        | d :: r => (d, r)
      let buf2 := bufPush buf1 data
      if data.length = 0 && buf2.length = 0 then ([], .ok ())
      else if data.length = 0 then ([], .error (.http ⟨400, "Unexpected EOF."⟩))
      else serveLoop f buf2 rest
    | .ok (some msg, buf1) =>
      match readerFromReq msg with
      | .error e => ([msg], .error e)
      | .ok .chunked =>
        match readerFromChunked conn buf1 with
        | .error e => ([msg], .error e)
        | .ok _ => ([msg], .error (.runtime "unreachable"))
      | .ok (.withLength n) =>
        let isEcho := msg.uri = strBytes "/echo"
        let afterWrite : Except Err (Nat × DynBuf × List (List Nat)) :=
          if isEcho then
            match drainBody f n buf1 conn with
            | .error e => .error e
            | .ok (b, c) => .ok (0, b, c)
          else .ok (n, buf1, conn)
        match afterWrite with
        | .error e => ([msg], .error e)
        | .ok (rem, buf2, conn2) =>
          if msg.version = "1.0" then ([msg], .ok ())
          else
            match drainBody f rem buf2 conn2 with
            | .error e => ([msg], .error e)
            | .ok (buf3, conn3) =>
              let (reqs, r) := serveLoop f buf3 conn3
              (msg :: reqs, r)

/-! ## Spec-modelled chunked decoding -/

/-- Hex digit value (RFC 7230 chunk-size digits). -/
def hexDigitVal (c : Char) : Option Nat :=
  if '0' ≤ c ∧ c ≤ '9' then some (c.toNat - 48)
  else if 'a' ≤ c ∧ c ≤ 'f' then some (c.toNat - 87)
  else if 'A' ≤ c ∧ c ≤ 'F' then some (c.toNat - 55)
  else none

/-- Value of a chunk-size line: all characters must be hex digits and at
least one must be present, else the line is malformed (`none`). -/
def hexLineVal (cs : List Char) : Option Nat :=
  if cs.isEmpty then none
  else cs.foldlM (fun a c => (hexDigitVal c).map (fun d => a * 16 + d)) 0

/-- Modelled from the spec: the chunked-body decoder (spec §4.6, "Chunked
variant") is missing from the source — `readerFromChunked` throws
unconditionally.  Following the spec's words: repeatedly read a hex
chunk-size line terminated by CRLF (a malformed size line is
`HTTPError(400, "Invalid chunk size")`); on size 0 consume the terminating
CRLF and signal end of body; otherwise take exactly `size` chunk-data
bytes plus their trailing CRLF and deliver them as one produced chunk;
input exhausted before the terminal zero chunk is
`HTTPError(400, "Unexpected end of chunked body")`.  Trailer header lines
after the zero chunk are not modelled.  `fuel` only bounds recursion. -/
def specChunkedDecodeGo (fuel : Nat) (l : List Nat) : Except HTTPError (List (List Nat)) :=
  match fuel with
  | 0 => .error ⟨400, "Unexpected end of chunked body"⟩
  | f + 1 =>
    match findSub crlf l with
    | none => .error ⟨400, "Unexpected end of chunked body"⟩
    | some i =>
      match hexLineVal (bytesToChars (l.take i)) with
      | none => .error ⟨400, "Invalid chunk size"⟩
      | some 0 =>
        if (l.drop (i + 2)).take 2 = crlf then .ok []
        else .error ⟨400, "Unexpected end of chunked body"⟩
      | some (n + 1) =>
        let sz := n + 1
        let rest := l.drop (i + 2)
        if rest.length < sz + 2 then .error ⟨400, "Unexpected end of chunked body"⟩
        else if (rest.drop sz).take 2 ≠ crlf then .error ⟨400, "Invalid chunk size"⟩
        else
          match specChunkedDecodeGo f (rest.drop (sz + 2)) with
          | .error e => .error e
          | .ok cs => .ok (rest.take sz :: cs)

/-- Modelled from the spec: decode a complete chunked body, producing the
list of data chunks (the empty end-of-body chunk is the `.ok` itself). -/
def specChunkedDecode (l : List Nat) : Except HTTPError (List (List Nat)) :=
  specChunkedDecodeGo (l.length + 1) l

/-! ## Reference definitions written from the spec's words

These are *spec-side* restatements, used only to compare against the
source-side definitions above (refinement/equivalence claims). -/

/-- The bytes strictly after the first occurrence of `sep`, or `none`. -/
def afterFirstSep (sep : Char) : List Char → Option (List Char)
  | [] => none
  | c :: t => if c = sep then some t else afterFirstSep sep t

/-- The claim's header criterion exactly as stated: the line contains `:`,
splitting it on the *first* `:` yields two non-empty parts, and the key
does not end in a trailing space. -/
def specHeaderOKClaim (h : List Nat) : Bool :=
  if h.contains 58 then
    let k := h.takeWhile (· ≠ 58)
    let v := h.drop (k.length + 1)
    decide (k ≠ []) && decide (v ≠ []) && !(k.getLast? == some 32)
  else false

/-- The amended header criterion: as the claim, except that the second
part is the text between the first and the second `:` (or the remainder
when there is no second `:`).  Stated on the decoded text: the key is
everything before the first `:`, the value-part is the text after the
first `:` up to the next `:` if any; both must be non-empty and the key
must not end in a space. -/
def specHeaderOKAmended (h : List Nat) : Bool :=
  if h.contains 58 then
    let cs := bytesToChars h
    let k := cs.takeWhile (· ≠ ':')
    let v :=
      (match afterFirstSep ':' cs with
       | none => []
       | some t => t).takeWhile (· ≠ ':')
    decide (k ≠ []) && decide (v ≠ []) && !(k.getLast? == some ' ')
  else false

/-- The amended request-line claim's reference parser, written from the
amended claim's words for a line of exactly three tokens: whitelisted
method (else 405); non-empty, space-free URI, `CONNECT` requiring `:`
and `OPTIONS` requiring length 1 (else 400); the version is the text of
the third token after the first `/` and before the next `/` if any
(`none` when the token has no `/`), and must be `1.0` or `1.1`
(else 505). -/
def specRequestLineRef (m u v3 : List Char) : Except Err (String × List Nat × String) :=
  if ¬(String.mk m ∈ kHttpMethods) then
    .error (.http ⟨405, "Method not allowed"⟩)
  else if u = [] ∨ u.contains ' ' = true ∨ (String.mk m = "CONNECT" ∧ u.contains ':' = false)
      ∨ (String.mk m = "OPTIONS" ∧ u.length ≠ 1) then
    .error (.http ⟨400, "Bad URI"⟩)
  else
    match afterFirstSep '/' v3 with
    | none => .error (.http ⟨505, "HTTP version not supported"⟩)
    | some rest =>
      let v := rest.takeWhile (· ≠ '/')
      if v = "1.0".data ∨ v = "1.1".data then
        .ok (String.mk m, charsToBytes u, String.mk v)
      else
        .error (.http ⟨505, "HTTP version not supported"⟩)

/-! ## Character/byte transfer lemmas -/

theorem toNat_ofNat_of_valid (n : Nat) (h : n.isValidChar) :
    (Char.ofNat n).toNat = n := by
  unfold Char.ofNat
  rw [dif_pos h]
  unfold Char.ofNatAux
  simp [Char.toNat, UInt32.toNat, BitVec.toNat_ofNatLt]

theorem ofNat_eq_iff (b : Nat) (c : Char) (hc : c.toNat ≠ 0) :
    Char.ofNat b = c ↔ b = c.toNat := by
  constructor
  · intro h
    by_cases hv : b.isValidChar
    · have := toNat_ofNat_of_valid b hv
      rw [h] at this
      omega
    · rw [Char.ofNat, dif_neg hv] at h
      exact absurd (congrArg Char.toNat h.symm) (by simpa [Char.toNat] using hc)
  · rintro rfl
    exact Char.ofNat_toNat c

theorem bytesToChars_charsToBytes (cs : List Char) :
    bytesToChars (charsToBytes cs) = cs := by
  simp [bytesToChars, charsToBytes, Function.comp_def, Char.ofNat_toNat]

theorem length_charsToBytes (cs : List Char) :
    (charsToBytes cs).length = cs.length := by
  simp [charsToBytes]

theorem charToNat_inj {a c : Char} (h : a.toNat = c.toNat) : a = c := by
  have h2 := Char.ofNat_toNat a
  rw [h, Char.ofNat_toNat c] at h2
  exact h2.symm

theorem beq_toNat_eq_beq (c a : Char) : (c.toNat == a.toNat) = (c == a) := by
  by_cases h : c = a
  · simp [h]
  · have hn : c.toNat ≠ a.toNat := fun hEq => h (charToNat_inj hEq)
    simp [h, hn]

theorem contains_charsToBytes (cs : List Char) (c : Char) :
    (charsToBytes cs).contains c.toNat = cs.contains c := by
  induction cs with
  | nil => rfl
  | cons a t ih =>
    simp only [charsToBytes, List.map_cons, List.contains_cons] at ih ⊢
    rw [beq_toNat_eq_beq, ih]

theorem beq_ofNat_eq (c : Char) (b : Nat) (hc : c.toNat ≠ 0) :
    (c == Char.ofNat b) = (c.toNat == b) := by
  by_cases hb : b = c.toNat
  · subst hb
    simp [Char.ofNat_toNat]
  · have h1 : Char.ofNat b ≠ c := fun hh => hb ((ofNat_eq_iff b c hc).mp hh)
    have h2 : c ≠ Char.ofNat b := Ne.symm h1
    simp [h2, Ne.symm hb]

theorem contains_bytesToChars (h : List Nat) (c : Char) (hc : c.toNat ≠ 0) :
    (bytesToChars h).contains c = h.contains c.toNat := by
  induction h with
  | nil => rfl
  | cons b t ih =>
    simp only [bytesToChars, List.map_cons, List.contains_cons] at ih ⊢
    rw [beq_ofNat_eq c b hc, ih]

/-! ## `splitChar` lemmas -/

theorem splitChar_ne_nil (sep : Char) (l : List Char) : splitChar sep l ≠ [] := by
  cases l with
  | nil => simp [splitChar]
  | cons c t =>
    simp only [splitChar]
    split
    · simp
    · split <;> simp

theorem splitChar_eq (sep : Char) (l : List Char) :
    splitChar sep l =
      l.takeWhile (· ≠ sep) ::
        (match afterFirstSep sep l with
         | none => []
         | some t => splitChar sep t) := by
  induction l with
  | nil => simp [splitChar, afterFirstSep]
  | cons c t ih =>
    by_cases h : c = sep
    · subst h
      simp [splitChar, afterFirstSep, List.takeWhile_cons]
    · simp only [splitChar, if_neg h, ih]
      simp [afterFirstSep, if_neg h, List.takeWhile_cons, h]

theorem afterFirstSep_eq_none (sep : Char) (l : List Char) :
    afterFirstSep sep l = none ↔ l.contains sep = false := by
  induction l with
  | nil => simp [afterFirstSep]
  | cons c t ih =>
    by_cases h : c = sep
    · subst h
      simp [afterFirstSep, List.contains_cons]
    · have hcs : (sep == c) = false := beq_eq_false_iff_ne.mpr (Ne.symm h)
      simp only [afterFirstSep, if_neg h, List.contains_cons, ih, hcs]
      simp

theorem takeWhile_append_sep (sep : Char) (a b : List Char)
    (ha : a.contains sep = false) :
    (a ++ sep :: b).takeWhile (· ≠ sep) = a := by
  induction a with
  | nil => simp [List.takeWhile_cons]
  | cons x t ih =>
    simp only [List.contains_cons, Bool.or_eq_false_iff] at ha
    have hx : x ≠ sep := by
      intro hh
      simp [hh] at ha
    simpa [List.takeWhile_cons, hx] using ih ha.2

theorem afterFirstSep_append (sep : Char) (a b : List Char)
    (ha : a.contains sep = false) :
    afterFirstSep sep (a ++ sep :: b) = some b := by
  induction a with
  | nil => simp [afterFirstSep]
  | cons x t ih =>
    simp only [List.contains_cons, Bool.or_eq_false_iff] at ha
    have hx : x ≠ sep := by
      intro hh
      simp [hh] at ha
    simp only [List.cons_append, afterFirstSep, if_neg hx]
    exact ih ha.2

theorem takeWhile_of_no_sep (sep : Char) (l : List Char)
    (h : l.contains sep = false) :
    l.takeWhile (· ≠ sep) = l := by
  have hmem : sep ∉ l := by simpa using h
  refine List.takeWhile_eq_self_iff.mpr ?_
  intro a ha
  simp only [decide_eq_true_eq]
  exact fun hh => hmem (hh ▸ ha)

theorem splitChar_no_sep (sep : Char) (l : List Char)
    (h : l.contains sep = false) :
    splitChar sep l = [l] := by
  rw [splitChar_eq, (afterFirstSep_eq_none sep l).mpr h, takeWhile_of_no_sep sep l h]

theorem splitChar_append_sep (sep : Char) (a b : List Char)
    (ha : a.contains sep = false) :
    splitChar sep (a ++ sep :: b) = a :: splitChar sep b := by
  rw [splitChar_eq, afterFirstSep_append sep a b ha, takeWhile_append_sep sep a b ha]

theorem splitChar_get_one (sep : Char) (l : List Char) :
    (splitChar sep l).get? 1 = (afterFirstSep sep l).map (List.takeWhile (· ≠ sep)) := by
  rw [splitChar_eq]
  cases h : afterFirstSep sep l with
  | none => simp
  | some t =>
    simp only [Option.map_some]
    rw [show (1 : Nat) = 0 + 1 from rfl, List.get?_cons_succ, splitChar_eq sep t]
    simp

/-! ## Request-line refinement -/

theorem stringMk_eq_iff (v : List Char) (s : String) : String.mk v = s ↔ v = s.data := by
  constructor
  · intro h
    exact congrArg String.data h
  · intro h
    subst h
    rfl

theorem validateURI_false_iff (u : List Char) (m : String) :
    validateURI (charsToBytes u) m = false ↔
      (u = [] ∨ u.contains ' ' = true ∨ (m = "CONNECT" ∧ u.contains ':' = false)
        ∨ (m = "OPTIONS" ∧ u.length ≠ 1)) := by
  have h32 : (charsToBytes u).contains 32 = u.contains ' ' := by
    rw [show (32 : Nat) = Char.toNat ' ' from by decide]
    exact contains_charsToBytes u ' '
  have h58 : (charsToBytes u).contains 58 = u.contains ':' := by
    rw [show (58 : Nat) = Char.toNat ':' from by decide]
    exact contains_charsToBytes u ':'
  rw [validateURI, h32, h58, length_charsToBytes]
  split_ifs with h1 h2 h3 <;> (simp_all; try tauto)

/-- The source's `parseRequestLine`, applied to a line of exactly three
space-free tokens, agrees with the spec-side reference parser. -/
theorem parseRequestLine_eq_ref (m u v3 : List Char)
    (hm : m.contains ' ' = false) (hu : u.contains ' ' = false)
    (hv : v3.contains ' ' = false) :
    parseRequestLine (charsToBytes (m ++ ' ' :: (u ++ ' ' :: v3))) =
      specRequestLineRef m u v3 := by
  have hsplit : splitChar ' ' (bytesToChars (charsToBytes (m ++ ' ' :: (u ++ ' ' :: v3)))) =
      [m, u, v3] := by
    rw [bytesToChars_charsToBytes, splitChar_append_sep ' ' m _ hm,
      splitChar_append_sep ' ' u _ hu, splitChar_no_sep ' ' v3 hv]
  simp only [parseRequestLine, hsplit, specRequestLineRef]
  by_cases hmem : String.mk m ∈ kHttpMethods
  · have hcont : kHttpMethods.contains (String.mk m) = true := by simpa using hmem
    rw [hcont, if_neg (by simp), if_neg (not_not_intro hmem)]
    by_cases hcond : (u = [] ∨ u.contains ' ' = true
        ∨ (String.mk m = "CONNECT" ∧ u.contains ':' = false)
        ∨ (String.mk m = "OPTIONS" ∧ u.length ≠ 1))
    · rw [if_pos ((validateURI_false_iff u (String.mk m)).mpr hcond), if_pos hcond]
    · have hval : validateURI (charsToBytes u) (String.mk m) = true := by
        rcases Bool.eq_false_or_eq_true (validateURI (charsToBytes u) (String.mk m)) with ht | hf
        · exact ht
        · exact absurd ((validateURI_false_iff u (String.mk m)).mp hf) hcond
      rw [hval, if_neg (by simp), if_neg hcond, splitChar_get_one]
      cases hA : afterFirstSep '/' v3 with
      | none => simp
      | some rest =>
        simp only [Option.map]
        by_cases hins : (rest.takeWhile (· ≠ '/') = "1.0".data
            ∨ rest.takeWhile (· ≠ '/') = "1.1".data)
        · rw [if_pos hins, if_neg]
          intro hcontra
          rcases hins with h10 | h11
          · exact hcontra.1 ((stringMk_eq_iff _ _).mpr h10)
          · exact hcontra.2 ((stringMk_eq_iff _ _).mpr h11)
        · rw [if_neg hins, if_pos]
          constructor
          · intro h10
            exact hins (Or.inl ((stringMk_eq_iff _ _).mp h10))
          · intro h11
            exact hins (Or.inr ((stringMk_eq_iff _ _).mp h11))
  · have hcont : kHttpMethods.contains (String.mk m) = false := by simpa using hmem
    rw [hcont, if_pos rfl, if_pos hmem]

theorem contains_append (a b : List Char) (x : Char) :
    (a ++ b).contains x = (a.contains x || b.contains x) := by
  induction a with
  | nil => simp
  | cons y t ih => simp [List.contains_cons, ih, Bool.or_assoc]

/-! ## Concrete program states used by the claims -/

/-- C2's operation sequence, starting from the empty buffer `serveClient`
allocates: push 17 bytes, pop 16 (all pops at most the unconsumed
length), push 19 bytes. -/
def c2state : Option DynBuf :=
  (bufPop (bufPush ⟨[], 0, 0⟩ (List.replicate 17 1)) 16).map
    (fun b => bufPush b (List.replicate 19 2))

/-- C3's buffer: capacity 32, window = the whole store, holding a valid
18-byte header block followed by 14 body bytes. -/
def c3buf : DynBuf :=
  ⟨strBytes "GET / HTTP/1.1\r\n\r\nABCDEFGHIJKLMN", 32, 0⟩

/-- C6's request: `POST /` with `Content-Length: 0`. -/
def postContentLength0 : HTTPReq :=
  ⟨"POST", strBytes "/", "1.1", [strBytes "Content-Length: 0"]⟩

/-- A `POST /` with `Content-Length: 5`, for contrast. -/
def postContentLength5 : HTTPReq :=
  ⟨"POST", strBytes "/", "1.1", [strBytes "Content-Length: 5"]⟩

/-- C7's buffer: capacity 32, unconsumed window `[20, 30)`. -/
def c7buf : DynBuf :=
  ⟨List.replicate 32 7, 10, 20⟩

/-- C8's buffer: two complete `GET / HTTP/1.0` requests already buffered. -/
def c8buf : DynBuf :=
  ⟨strBytes "GET / HTTP/1.0\r\n\r\nGET / HTTP/1.0\r\n\r\n", 36, 0⟩

/-! ## Claim theorems -/

/-- C1: the claim says the chunked body-reader variant decodes RFC 7230
chunked framing.  The source's `readerFromChunked` instead throws
`Error("Function not implemented.")` unconditionally — the decoder
exists only commented out — so no chunked request can be served.  The
spec-modelled decoder (`specChunkedDecode`, written from the spec's
words) exhibits the claimed behaviour: `"3\r\nfoo\r\n0\r\n\r\n"` decodes
to exactly `"foo"` (followed by end of body) and a malformed chunk-size
line raises `HTTPError(400)`. -/
theorem chunked_reader_stubbed_spec_decode :
    (∀ conn buf, readerFromChunked conn buf = .error (.runtime "Function not implemented.")) ∧
    specChunkedDecode (strBytes "3\r\nfoo\r\n0\r\n\r\n") = .ok [strBytes "foo"] ∧
    specChunkedDecode (strBytes "zz\r\nfoo\r\n0\r\n\r\n") = .error ⟨400, "Invalid chunk size"⟩ :=
  ⟨fun _ _ => rfl, by decide, by decide⟩

/-- C2: the claim says `begin + length ≤ capacity` holds after every
push/pop sequence (pops bounded by the unconsumed length).  It fails: from
the empty buffer, push 17 bytes (capacity becomes 32), pop 16
(`begin = 16`, no compaction since `begin` does not *exceed* half the
capacity), then push 19 bytes.  The reallocation check
`buf.data.length - buf.begin < newLen` fires, but the new capacity target
`growCap (max 32 32) 20 = 32` ignores `begin`, so the store is *not*
grown, the copy is silently truncated (only 15 of 19 bytes stored), and
the final state has `begin + length = 36 > 32 = capacity`. -/
theorem bufPush_breaks_window_invariant :
    c2state.map dynBufInvB = some false ∧
    c2state.map (fun b => (b.bstart + b.length, b.data.length)) = some (36, 32) := by
  constructor
  · decide
  · decide

/-- C3: the claim says that with the terminator present `cutMessage`
parses the header block and pops exactly `terminator-offset + 4` bytes,
leaving body bytes unconsumed.  On `c3buf` — a window-invariant-satisfying
state whose terminator is at window offset 14 and whose 18-byte header
block parses successfully — the `bufPop(buf, 18)` compaction instead
calls `fill(0, 32, 50)` with `end = 50 > capacity = 32`, which throws
`ERR_OUT_OF_RANGE`, so `cutMessage` raises a `RangeError` rather than
popping. -/
theorem cutMessage_raises_range_error_on_pop :
    dynBufInvB c3buf = true ∧
    findSub crlfcrlf ((c3buf.data.drop c3buf.bstart).take c3buf.length) = some 14 ∧
    parseHTTPReq ((c3buf.data.drop c3buf.bstart).take (14 + 4)) =
      .ok ⟨"GET", strBytes "/", "1.1", []⟩ ∧
    cutMessage c3buf = .error (.runtime "ERR_OUT_OF_RANGE") := by
  refine ⟨by decide, by decide, by decide, by decide⟩

/-- C6: the claim says every numeric decimal `Content-Length` (including
0) is accepted.  `parseDec` is `parseInt(arg0, 10) || NaN`, and `0` is
falsy in JS, so a request with `Content-Length: 0` — for which
`parseInt` itself returns 0 — is rejected with
`HTTPError(400, "Bad Content-Length")`, while `Content-Length: 5` is
accepted with declared length 5. -/
theorem readerFromReq_rejects_content_length_zero :
    jsParseInt10 (bytesToChars (strBytes " 0")) = some 0 ∧
    readerFromReq postContentLength0 = .error (.http ⟨400, "Bad Content-Length"⟩) ∧
    readerFromReq postContentLength5 = .ok (.withLength 5) := by
  refine ⟨by decide, by decide, by decide⟩

/-- C7: the claim says every `read()` on the content-length reader
returns up to `min(bufferedUnconsumed, remainingLength)` bytes.  On
`c7buf` — window invariant satisfied, 10 buffered bytes, remaining
length 10, so the claim expects those 10 bytes — the `bufPop(buf, 10)`
compaction calls `fill(0, 10, 40)` with `end = 40 > capacity = 32`,
which throws `ERR_OUT_OF_RANGE`, so the call raises a `RangeError`
instead of returning. -/
theorem connLengthRead_raises_range_error :
    dynBufInvB c7buf = true ∧
    min c7buf.length 10 = 10 ∧
    connLengthRead 10 c7buf [] = .error (.runtime "ERR_OUT_OF_RANGE") := by
  refine ⟨by decide, by decide, by decide⟩

/-- C5 counterexample: the claim's criterion — the line contains `:` and
splitting on the *first* `:` yields two non-empty parts — accepts the
header line `"a::b"` (parts `"a"` and `":b"`), but `validateHeader` uses
`split(":", 2)`, whose second field is the text *between* the first and
second colon (here empty), so the line is rejected (400 "Bad header"). -/
theorem validateHeader_rejects_empty_between_colons :
    specHeaderOKClaim (strBytes "a::b") = true ∧
    validateHeader (strBytes "a::b") = false := by
  refine ⟨by decide, by decide⟩

/-- C5 (amended): a header line passes `validateHeader` iff it contains
`:`, the part before the first `:` and the part *between the first and
second* `:` (the remainder when there is only one `:`) are both
non-empty, and the key does not end in a trailing space; `parseHTTPReq`
keeps exactly the passing lines — the lines strictly between the request
line and the final blank-line slot — in their original order. -/
theorem validateHeader_amended :
    (∀ h, validateHeader h = specHeaderOKAmended h) ∧
    (∀ d r, parseHTTPReq d = .ok r →
        r.headers = ((splitlines d).drop 1).dropLast ∧
        r.headers.all specHeaderOKAmended = true) := by
  have beq_decide : ∀ (k : List Char), (k.getLast? == some ' ') = decide (k.getLast? = some ' ') := by
    intro k
    by_cases hq : k.getLast? = some ' ' <;> simp [hq]
  have main : ∀ h, validateHeader h = specHeaderOKAmended h := by
    intro h
    by_cases hc : h.contains 58 = true
    · have hne : h ≠ [] := by
        intro hh
        subst hh
        simp [List.contains] at hc
      have hcc : (bytesToChars h).contains ':' = true := by
        rw [contains_bytesToChars h ':' (by decide)]
        exact hc
      obtain ⟨t, ht⟩ : ∃ t, afterFirstSep ':' (bytesToChars h) = some t := by
        cases hA : afterFirstSep ':' (bytesToChars h) with
        | none =>
          have := (afterFirstSep_eq_none ':' (bytesToChars h)).mp hA
          rw [hcc] at this
          exact absurd this (by simp)
        | some t => exact ⟨t, rfl⟩
      have hsplit : (splitChar ':' (bytesToChars h)).take 2 =
          [(bytesToChars h).takeWhile (· ≠ ':'), t.takeWhile (· ≠ ':')] := by
        rw [splitChar_eq ':' (bytesToChars h), ht]
        simp [splitChar_eq ':' t]
      rw [validateHeader, specHeaderOKAmended, hsplit, hc]
      have hlen0 : decide (h.length = 0) = false := by
        simp [List.length_eq_zero, hne]
      simp only [hlen0, Bool.not_true, Bool.or_false, Bool.or_self, ht, eq_self_iff_true,
        if_true, Bool.false_eq_true, if_false, beq_decide, Bool.not_or, Bool.and_assoc,
        ne_eq, decide_not, List.length_eq_zero]
      simp [hne]
    · have hcf : h.contains 58 = false := by
        simpa using hc
      rw [validateHeader, specHeaderOKAmended, hcf]
      simp
  refine ⟨main, ?_⟩
  intro d r hr
  cases hs : splitlines d with
  | nil =>
    simp only [parseHTTPReq, hs] at hr
    exact absurd hr (by simp)
  | cons first rest =>
    cases hp : parseRequestLine first with
    | error e =>
      simp only [parseHTTPReq, hs, hp] at hr
      exact absurd hr (by simp)
    | ok mv =>
      obtain ⟨method, uri, version⟩ := mv
      simp only [parseHTTPReq, hs, hp] at hr
      by_cases hall : rest.dropLast.all validateHeader = true
      · rw [if_pos hall] at hr
        injection hr with hrec
        subst hrec
        constructor
        · simp
        · have h1 : ∀ x ∈ rest.dropLast, validateHeader x = true := by
            simpa [List.all_eq_true] using hall
          have h2 : ∀ x ∈ rest.dropLast, specHeaderOKAmended x = true := by
            intro x hx
            rw [← main x]
            exact h1 x hx
          simpa [List.all_eq_true] using h2
      · rw [if_neg hall] at hr
        exact absurd hr (by simp)

/-- Instantiation of `validateHeader_amended` at a concrete request:
`GET / HTTP/1.1` with a single `Host: a` header. -/
theorem validateHeader_amended_witness :
    (⟨"GET", strBytes "/", "1.1", [strBytes "Host: a"]⟩ : HTTPReq).headers =
      ((splitlines (strBytes "GET / HTTP/1.1\r\nHost: a\r\n\r\n")).drop 1).dropLast ∧
    (⟨"GET", strBytes "/", "1.1", [strBytes "Host: a"]⟩ : HTTPReq).headers.all
      specHeaderOKAmended = true :=
  validateHeader_amended.2 (strBytes "GET / HTTP/1.1\r\nHost: a\r\n\r\n") _ (by decide)

/-- C9: `getField` — the lookup used for body framing — destructures the
*full* `split(":")` of each header line as `[k, v]`, so for a line
`key ':' v1 ':' v2` whose value contains a second colon it returns only
the text strictly between the first and the second colon, silently
dropping everything from the second colon onward. -/
theorem getField_truncates_at_second_colon
    (k v1 v2 : List Char) (key : String)
    (hk : k.contains ':' = false) (hv1 : v1.contains ':' = false)
    (hmatch : toLowerChars k = toLowerChars key.data) :
    getField [charsToBytes (k ++ ':' :: (v1 ++ ':' :: v2))] key =
      .ok (some (charsToBytes v1)) := by
  have hsplit : splitChar ':' (bytesToChars (charsToBytes (k ++ ':' :: (v1 ++ ':' :: v2)))) =
      k :: v1 :: splitChar ':' v2 := by
    rw [bytesToChars_charsToBytes, splitChar_append_sep ':' k _ hk,
      splitChar_append_sep ':' v1 _ hv1]
  simp only [getField, hsplit, List.headD_cons]
  rw [if_pos hmatch]
  simp

/-- Instantiation of `getField_truncates_at_second_colon` at
`Host: example.com:8080`, looked up under the key `Host`: the result is
`" example.com"` — the port is dropped. -/
theorem getField_truncates_witness :
    getField [strBytes "Host: example.com:8080"] "Host" =
      .ok (some (strBytes " example.com")) := by
  have he : strBytes "Host: example.com:8080" =
      charsToBytes ("Host".data ++ ':' :: (" example.com".data ++ ':' :: "8080".data)) := by
    decide
  rw [he]
  exact getField_truncates_at_second_colon "Host".data " example.com".data "8080".data "Host"
    (by decide) (by decide) (by decide)

/-- C4 counterexample: for the request line `GET / HTTP/1.0/x` the text
after `HTTP/` is `"1.0/x"`, which is neither `1.0` nor `1.1`, so the
claim as stated requires ProtocolError(505); but the code takes
`elements[2].split("/")[1]` — the text between the first and second `/`
of the third token, here `"1.0"` — and accepts the line with version
`1.0`. -/
theorem parseRequestLine_accepts_second_slash :
    ("HTTP/1.0/x" = "HTTP/" ++ "1.0/x" ∧ "1.0/x" ≠ "1.0" ∧ "1.0/x" ≠ "1.1") ∧
    parseRequestLine (strBytes "GET / HTTP/1.0/x") ≠
      .error (.http ⟨505, "HTTP version not supported"⟩) ∧
    parseRequestLine (strBytes "GET / HTTP/1.0/x") = .ok ("GET", strBytes "/", "1.0") := by
  refine ⟨by decide, by decide, by decide⟩

/-- C4 (amended): request-line parsing raises exactly the specified
errors, with the version read as the text of the third token after the
first `/` and up to the second `/` if any (a third token with no `/`
also raises 505): a line that does not split into exactly 3
space-separated tokens raises 400 "Bad request line", and a line of
three space-free tokens behaves exactly as the spec-side reference
parser `specRequestLineRef` — method whitelist (405), URI validation
(400), version-segment check (505) — returning method, URI and version
otherwise. -/
theorem parseRequestLine_amended :
    (∀ line, (splitChar ' ' (bytesToChars line)).length ≠ 3 →
        parseRequestLine line = .error (.http ⟨400, "Bad request line"⟩)) ∧
    (∀ m u v3 : List Char, m.contains ' ' = false → u.contains ' ' = false →
        v3.contains ' ' = false →
        parseRequestLine (charsToBytes (m ++ ' ' :: (u ++ ' ' :: v3))) =
          specRequestLineRef m u v3) := by
  constructor
  · intro line hlen
    cases hs : splitChar ' ' (bytesToChars line) with
    | nil => simp [parseRequestLine, hs]
    | cons a t =>
      cases t with
      | nil => simp [parseRequestLine, hs]
      | cons b t2 =>
        cases t2 with
        | nil => simp [parseRequestLine, hs]
        | cons c t3 =>
          cases t3 with
          | nil => exact absurd (by rw [hs] ; rfl) hlen
          | cons d t4 => simp [parseRequestLine, hs]
  · exact parseRequestLine_eq_ref

/-- Instantiation of `parseRequestLine_amended`: the two-token line
`GET /` raises 400, and `GET / HTTP/1.1` agrees with the reference
parser. -/
theorem parseRequestLine_amended_witness :
    parseRequestLine (strBytes "GET /") = .error (.http ⟨400, "Bad request line"⟩) ∧
    parseRequestLine (charsToBytes ("GET".data ++ ' ' :: ("/".data ++ ' ' :: "HTTP/1.1".data))) =
      specRequestLineRef "GET".data "/".data "HTTP/1.1".data :=
  ⟨parseRequestLine_amended.1 (strBytes "GET /") (by decide),
   parseRequestLine_amended.2 "GET".data "/".data "HTTP/1.1".data
     (by decide) (by decide) (by decide)⟩

/-- C10: with a whitelisted method and valid URI, the version check
inspects only the text after the first `/` of the third token and never
the prefix before it: a third token containing no `/` raises 505, and
any third token `prefix / version` with a slash-free prefix and version
text `1.0` or `1.1` is accepted with that version, whatever the prefix
(for example `FOO/1.1`). -/
theorem requestLine_version_segment_only :
    (∀ m u t : List Char, m.contains ' ' = false → u.contains ' ' = false →
      t.contains ' ' = false →
      String.mk m ∈ kHttpMethods →
      validateURI (charsToBytes u) (String.mk m) = true →
      t.contains '/' = false →
      parseRequestLine (charsToBytes (m ++ ' ' :: (u ++ ' ' :: t))) =
        .error (.http ⟨505, "HTTP version not supported"⟩)) ∧
    (∀ m u p v : List Char, m.contains ' ' = false → u.contains ' ' = false →
      p.contains ' ' = false → v.contains ' ' = false →
      String.mk m ∈ kHttpMethods →
      validateURI (charsToBytes u) (String.mk m) = true →
      p.contains '/' = false →
      (String.mk v = "1.0" ∨ String.mk v = "1.1") →
      parseRequestLine (charsToBytes (m ++ ' ' :: (u ++ ' ' :: (p ++ '/' :: v)))) =
        .ok (String.mk m, charsToBytes u, String.mk v)) := by
  have huri : ∀ (m : String) (u : List Char),
      validateURI (charsToBytes u) m = true →
      ¬(u = [] ∨ u.contains ' ' = true ∨ (m = "CONNECT" ∧ u.contains ':' = false)
        ∨ (m = "OPTIONS" ∧ u.length ≠ 1)) := by
    intro m u hval hc
    rw [(validateURI_false_iff u m).mpr hc] at hval
    exact absurd hval (by simp)
  constructor
  · intro m u t hm hu ht hmem hval hslash
    rw [parseRequestLine_eq_ref m u t hm hu ht, specRequestLineRef,
      if_neg (not_not_intro hmem), if_neg (huri (String.mk m) u hval),
      (afterFirstSep_eq_none '/' t).mpr hslash]
  · intro m u p v hm hu hp hv hmem hval hpslash hver
    have hvslash : v.contains '/' = false := by
      rcases hver with h10 | h11
      · rw [(stringMk_eq_iff v "1.0").mp h10]
        decide
      · rw [(stringMk_eq_iff v "1.1").mp h11]
        decide
    have ht : (p ++ '/' :: v).contains ' ' = false := by
      rw [contains_append, hp, List.contains_cons, hv]
      decide
    rw [parseRequestLine_eq_ref m u (p ++ '/' :: v) hm hu ht, specRequestLineRef,
      if_neg (not_not_intro hmem), if_neg (huri (String.mk m) u hval),
      afterFirstSep_append '/' p v hpslash]
    simp only [takeWhile_of_no_sep '/' v hvslash]
    rw [if_pos]
    rcases hver with h10 | h11
    · exact Or.inl ((stringMk_eq_iff v "1.0").mp h10)
    · exact Or.inr ((stringMk_eq_iff v "1.1").mp h11)

/-- Instantiation of `requestLine_version_segment_only`:
`GET / HTTP1.1` (no slash in the third token) raises 505, and
`GET / FOO/1.1` is accepted with version `1.1` despite the prefix not
being `HTTP`. -/
theorem requestLine_version_segment_only_witness :
    parseRequestLine (charsToBytes ("GET".data ++ ' ' :: ("/".data ++ ' ' :: "HTTP1.1".data))) =
      .error (.http ⟨505, "HTTP version not supported"⟩) ∧
    parseRequestLine (charsToBytes ("GET".data ++ ' ' ::
        ("/".data ++ ' ' :: ("FOO".data ++ '/' :: "1.1".data)))) =
      .ok ("GET", charsToBytes "/".data, "1.1") :=
  ⟨requestLine_version_segment_only.1 "GET".data "/".data "HTTP1.1".data
      (by decide) (by decide) (by decide) (by decide) (by decide) (by decide),
   requestLine_version_segment_only.2 "GET".data "/".data "FOO".data "1.1".data
      (by decide) (by decide) (by decide) (by decide) (by decide) (by decide) (by decide)
      (Or.inr rfl)⟩

/-- C8: once the connection loop has parsed a request whose negotiated
version is `1.0`, it returns right after writing the response — before
the body-discard step, and without ever parsing another request — so the
request trace of the remaining run is exactly that one request,
regardless of the fuel, the pending connection input, or any further
complete requests already sitting in the buffer. -/
theorem serveLoop_http10_closes (fuel : Nat) (buf : DynBuf) (conn : List (List Nat))
    (msg : HTTPReq) (buf1 : DynBuf)
    (hcut : cutMessage buf = .ok (some msg, buf1))
    (hver : msg.version = "1.0") :
    (serveLoop (fuel + 1) buf conn).1 = [msg] := by
  simp only [serveLoop, hcut]
  cases hfr : readerFromReq msg with
  | error e => simp
  | ok fr =>
    cases fr with
    | chunked => simp [readerFromChunked]
    | withLength n =>
      simp only [hver]
      split <;> simp

/-- Instantiation of `serveLoop_http10_closes`: with two complete
`GET / HTTP/1.0` requests already buffered and no further input, the
loop serves exactly the first request and closes. -/
theorem serveLoop_http10_closes_witness :
    (serveLoop 5 c8buf []).1 = [⟨"GET", strBytes "/", "1.0", []⟩] :=
  serveLoop_http10_closes 4 c8buf [] ⟨"GET", strBytes "/", "1.0", []⟩
    ⟨c8buf.data, 18, 18⟩ (by decide) rfl

end WebServerNode
